import Mathlib

/-!
Verification of the algorithmic core of a MIDI-to-keyboard "human-like"
performance pipeline (models.py, core.py, analysis.py).

Modelling conventions:
- Python floats are modelled as exact rationals (ℚ); float literals such as
  0.015 become the exact rationals they denote in the source text (15/1000).
- Python ints (pitches, velocities, priorities) are modelled as ℤ.
- In-place mutation of note lists is modelled by returning the new list,
  and the Humanizer's per-hand drift attributes by an explicit state record.
- random.gauss / random.random are modelled as oracle streams (ℕ → ℚ),
  one draw of each per simultaneity group, indexed by group position.
- The unbounded while-loop of TempoMap.get_measure_boundaries takes an
  explicit fuel argument; on inputs where the Python loop terminates after
  at most fuel iterations the two agree.
- bisect.bisect_right is modelled by the same binary search loop.
-/

/-- models.py Note: id, pitch, velocity, start/duration in seconds, hand label,
source track index, channel. -/
structure Note where
  id : ℤ
  pitch : ℤ
  velocity : ℤ
  start_time : ℚ
  duration : ℚ
  hand : String
  original_track_index : ℤ
  channel : ℤ
deriving DecidableEq

instance : Inhabited Note := ⟨⟨0, 0, 0, 0, 0, "unknown", -1, -1⟩⟩

/-- models.py Note.end_time property: start_time + duration. -/
def Note.end_time (n : Note) : ℚ := n.start_time + n.duration

/-- models.py KeyEvent: time, ordering priority, action tag, key character.
For pedal events the source constructs KeyEvent(time, prio, 'pedal', 'down'/'up'),
so the press/release direction lives in key_char; pitch and velocity keep
their dataclass defaults (None and 100) in every pedal construction. -/
structure KeyEvent where
  time : ℚ
  priority : ℤ
  action : String
  key_char : String
  pitch : Option ℤ
  velocity : ℤ
deriving DecidableEq

/-- models.py MusicalSection. -/
structure MusicalSection where
  start_time : ℚ
  end_time : ℚ
  notes : List Note
  articulation_label : String
  pace_label : String
  start_beat : ℚ
  end_beat : ℚ
deriving DecidableEq

/-- Loop body of core.get_time_groups: `current` is the accumulated cluster
(never empty), and each incoming note is compared against the first member of
`current`, exactly as `notes[i].start_time - current[0].start_time <= threshold`. -/
def get_time_groups_go (threshold : ℚ) (current : List Note) : List Note → List (List Note)
  | [] => [current]
  | n :: rest =>
    if n.start_time - current.headI.start_time ≤ threshold then
      get_time_groups_go threshold (current ++ [n]) rest
    else
      current :: get_time_groups_go threshold [n] rest

/-- core.get_time_groups. The source default threshold is 0.015; callers pass
15/1000 explicitly here. -/
def get_time_groups (notes : List Note) (threshold : ℚ) : List (List Note) :=
  match notes with
  | [] => []
  | n :: rest => get_time_groups_go threshold [n] rest

theorem get_time_groups_go_flatten (th : ℚ) (rest : List Note) :
    ∀ cur : List Note, (get_time_groups_go th cur rest).flatten = cur ++ rest := by
  induction rest with
  | nil => intro cur; simp [get_time_groups_go]
  | cons n rest ih =>
    intro cur
    rw [get_time_groups_go]
    split
    · rw [ih]; simp
    · simp [ih]

theorem get_time_groups_go_ne_nil (th : ℚ) (rest : List Note) :
    ∀ cur : List Note, cur ≠ [] → ∀ g ∈ get_time_groups_go th cur rest, g ≠ [] := by
  induction rest with
  | nil =>
    intro cur hcur g hg
    simp only [get_time_groups_go, List.mem_singleton] at hg
    simpa [hg] using hcur
  | cons n rest ih =>
    intro cur hcur g hg
    rw [get_time_groups_go] at hg
    split at hg
    · exact ih _ (by simp) g hg
    · rcases List.mem_cons.mp hg with h | h
      · simpa [h] using hcur
      · exact ih [n] (by simp) g h

/-- The first cluster returned by the loop extends the accumulated cluster. -/
theorem get_time_groups_go_first (th : ℚ) (rest : List Note) :
    ∀ cur : List Note, ∃ ext gs, get_time_groups_go th cur rest = (cur ++ ext) :: gs := by
  induction rest with
  | nil => intro cur; exact ⟨[], [], by simp [get_time_groups_go]⟩
  | cons n rest ih =>
    intro cur
    rw [get_time_groups_go]
    split
    · obtain ⟨ext, gs, h⟩ := ih (cur ++ [n])
      exact ⟨[n] ++ ext, gs, by simpa using h⟩
    · exact ⟨[], get_time_groups_go th [n] rest, by simp⟩

theorem get_time_groups_go_within (th : ℚ) (h0 : 0 ≤ th) (rest : List Note) :
    ∀ h : Note, ∀ tl : List Note,
    (∀ n ∈ h :: tl, n.start_time - h.start_time ≤ th) →
    ∀ g ∈ get_time_groups_go th (h :: tl) rest,
      ∀ n ∈ g, n.start_time - g.headI.start_time ≤ th := by
  induction rest with
  | nil =>
    intro h tl hyp g hg n hn
    simp only [get_time_groups_go, List.mem_singleton] at hg
    subst hg
    simpa using hyp n hn
  | cons m rest ih =>
    intro h tl hyp g hg n hn
    rw [get_time_groups_go] at hg
    simp only [List.headI] at hg
    split at hg
    · refine ih h (tl ++ [m]) ?_ g (by simpa using hg) n hn
      intro x hx
      rcases List.mem_cons.mp hx with hx | hx
      · simpa [hx] using hyp h (by simp)
      · rcases List.mem_append.mp hx with hx | hx
        · exact hyp x (by simp [hx])
        · simp only [List.mem_singleton] at hx
          subst hx
          assumption
    · rcases List.mem_cons.mp hg with hg | hg
      · subst hg
        simpa using hyp n hn
      · refine ih m [] ?_ g hg n hn
        intro x hx
        simp only [List.mem_singleton] at hx
        subst hx
        simpa using h0

theorem get_time_groups_go_chain (th : ℚ) (rest : List Note) :
    ∀ h : Note, ∀ tl : List Note,
    List.Chain' (fun g1 g2 => th < g2.headI.start_time - g1.headI.start_time)
      (get_time_groups_go th (h :: tl) rest) := by
  induction rest with
  | nil => intro h tl; simp [get_time_groups_go]
  | cons m rest ih =>
    intro h tl
    rw [get_time_groups_go]
    simp only [List.headI]
    split
    · exact ih h (tl ++ [m])
    · obtain ⟨ext, gs, hfirst⟩ := get_time_groups_go_first th rest [m]
      rw [hfirst]
      refine List.Chain'.cons ?_ (hfirst ▸ ih m [])
      simpa using by linarith [not_le.mp (by assumption : ¬ m.start_time - h.start_time ≤ th)]

/-- C9: For every input list (including the empty list) and every threshold,
get_time_groups returns a partition of its input: the groups concatenate back
to the input list in order, every group is non-empty, and the empty input
yields an empty group list. -/
theorem C9_grouper_partition (notes : List Note) (th : ℚ) :
    (get_time_groups notes th).flatten = notes ∧
    (∀ g ∈ get_time_groups notes th, g ≠ []) ∧
    get_time_groups [] th = [] := by
  refine ⟨?_, ?_, rfl⟩
  · cases notes with
    | nil => simp [get_time_groups]
    | cons n rest => simpa using get_time_groups_go_flatten th rest [n]
  · cases notes with
    | nil => simp [get_time_groups]
    | cons n rest =>
      intro g hg
      exact get_time_groups_go_ne_nil th rest [n] (by simp) g hg

/-- Concrete notes with onsets 0.0, 0.01, 0.02, 0.05 seconds (the grouper
example from the specification). -/
def c4n0 : Note := ⟨0, 60, 100, 0, 1/10, "unknown", 0, 0⟩

def c4n1 : Note := ⟨1, 62, 100, 1/100, 1/10, "unknown", 0, 0⟩

def c4n2 : Note := ⟨2, 64, 100, 2/100, 1/10, "unknown", 0, 0⟩

def c4n3 : Note := ⟨3, 65, 100, 5/100, 1/10, "unknown", 0, 0⟩

/-- C4 (counterexample): the claim asserts that onsets 0.0, 0.01, 0.02, 0.05 s
with threshold 0.015 produce exactly the two groups [0.0, 0.01, 0.02] and
[0.05].  The code compares each note against the cluster's FIRST member, and
0.02 - 0.0 = 0.02 > 0.015, so the third note starts a new group: the actual
result is the three groups [0.0, 0.01], [0.02], [0.05]. -/
theorem C4_counterexample :
    get_time_groups [c4n0, c4n1, c4n2, c4n3] (15/1000) ≠ [[c4n0, c4n1, c4n2], [c4n3]] := by
  norm_num [get_time_groups, get_time_groups_go, c4n0, c4n1, c4n2, c4n3]

/-- C4 (amended): for every note list pre-sorted by start_time and every
threshold 0 ≤ th, the grouper keeps a note in the current cluster exactly when
its start_time is within th of the cluster's first note's start_time: every
member of a returned group is within th of that group's first member, and each
successive group's first member is strictly more than th after the previous
group's first member.  In particular onsets 0.0, 0.01, 0.02, 0.05 s with
threshold 0.015 produce exactly the three groups [0.0, 0.01], [0.02], [0.05]
(not two groups as claimed: 0.02 is not within 0.015 of 0.0). -/
theorem C4_grouper_first_member_rule (notes : List Note) (th : ℚ) (h0 : 0 ≤ th)
    (hsorted : List.Pairwise (fun a b => a.start_time ≤ b.start_time) notes) :
    ((∀ g ∈ get_time_groups notes th, ∀ n ∈ g, n.start_time - g.headI.start_time ≤ th) ∧
      List.Chain' (fun g1 g2 => th < g2.headI.start_time - g1.headI.start_time)
        (get_time_groups notes th)) ∧
    get_time_groups [c4n0, c4n1, c4n2, c4n3] (15/1000) = [[c4n0, c4n1], [c4n2], [c4n3]] := by
  refine ⟨⟨?_, ?_⟩, ?_⟩
  · cases notes with
    | nil => simp [get_time_groups]
    | cons n rest =>
      intro g hg m hm
      refine get_time_groups_go_within th h0 rest n [] ?_ g hg m hm
      intro x hx
      simp only [List.mem_singleton] at hx
      subst hx
      simpa using h0
  · cases notes with
    | nil => simp [get_time_groups]
    | cons n rest => exact get_time_groups_go_chain th rest n []
  · norm_num [get_time_groups, get_time_groups_go, c4n0, c4n1, c4n2, c4n3]

/-- Witness for C4_grouper_first_member_rule at notes = [], th = 0. -/
theorem C4_witness :
    ((∀ g ∈ get_time_groups [] 0, ∀ n ∈ g, n.start_time - g.headI.start_time ≤ 0) ∧
      List.Chain' (fun g1 g2 => (0:ℚ) < g2.headI.start_time - g1.headI.start_time)
        (get_time_groups [] 0)) ∧
    get_time_groups [c4n0, c4n1, c4n2, c4n3] (15/1000) = [[c4n0, c4n1], [c4n2], [c4n3]] :=
  C4_grouper_first_member_rule [] 0 (le_refl 0) List.Pairwise.nil

/-- bisect.bisect_right's binary search loop: lo/hi bounds, probe the midpoint,
keep the right half when the probe is at most x. -/
def bisect_go (a : List ℚ) (x : ℚ) (lo hi : ℕ) : ℕ :=
  if _h : lo < hi then
    let mid := (lo + hi) / 2
    if x < a.getD mid 0 then bisect_go a x lo mid
    else bisect_go a x (mid + 1) hi
  else lo
termination_by hi - lo
decreasing_by
· simp_wf
  omega
· simp_wf
  omega

/-- bisect.bisect_right over the whole list. -/
def bisect_right (a : List ℚ) (x : ℚ) : ℕ := bisect_go a x 0 a.length

/-- A tempo breakpoint of TempoMap._segments: (time_sec, cumulative beat,
microseconds-per-quarter tempo in force from this time on). -/
structure Seg where
  time : ℚ
  beat : ℚ
  tempo : ℚ
deriving DecidableEq

instance : Inhabited Seg := ⟨⟨0, 0, 500000⟩⟩

/-- Loop body of TempoMap._build_segments: walks the (sorted) tempo events
carrying the running cumulative beat, the previous event time, and the tempo
in force before the event. -/
def build_segments_go : List (ℚ × ℚ) → ℚ → ℚ → ℚ → List Seg
  | [], _, _, _ => []
  | (t, new_tempo) :: rest, beat, last_t, tempo =>
    let spb := tempo / 1000000
    let beat2 := beat + (t - last_t) / spb
    ⟨t, beat2, new_tempo⟩ :: build_segments_go rest beat2 t new_tempo

/-- core.TempoMap state after __init__: sorted tempo events, sorted time
signatures, the breakpoint segments, and the explicit-time-signature flag. -/
structure TempoMap where
  events : List (ℚ × ℚ)
  time_signatures : List (ℚ × ℚ × ℚ)
  segments : List Seg
  has_explicit_time_signatures : Bool
deriving DecidableEq

/-- TempoMap.__init__: sorts both inputs by time, builds the segments
(prepending a default 120 BPM segment at time 0 when there is no event at or
before time 0), and computes has_explicit_time_signatures from the RAW
time_signatures argument - note the source checks only the numerator
(time_signatures[0][1] == 4), never the denominator. -/
def TempoMap.build (tempo_events : List (ℚ × ℚ))
    (time_signatures : List (ℚ × ℚ × ℚ)) : TempoMap :=
  let events := tempo_events.mergeSort (fun a b => a.1 ≤ b.1)
  { events := events
    time_signatures := time_signatures.mergeSort (fun a b => a.1 ≤ b.1)
    segments :=
      (if events = [] ∨ 0 < events.headI.1 then [(⟨0, 0, 500000⟩ : Seg)] else []) ++
        build_segments_go events 0 0 500000
    has_explicit_time_signatures :=
      decide (time_signatures ≠ [] ∧
        ¬ (time_signatures.length = 1 ∧ time_signatures.headI.1 = 0 ∧
            time_signatures.headI.2.1 = 4)) }

/-- core.TempoMap.time_to_beat. -/
def TempoMap.time_to_beat (tm : TempoMap) (t : ℚ) : ℚ :=
  let idx : ℤ := (bisect_right (tm.segments.map Seg.time) t : ℤ) - 1
  if idx < 0 then 0
  else
    let s := tm.segments.getD idx.toNat default
    s.beat + (t - s.time) / (s.tempo / 1000000)

/-- core.TempoMap.beat_to_time. -/
def TempoMap.beat_to_time (tm : TempoMap) (b : ℚ) : ℚ :=
  let idx : ℤ := (bisect_right (tm.segments.map Seg.beat) b : ℤ) - 1
  if idx < 0 then 0
  else
    let s := tm.segments.getD idx.toNat default
    s.time + (b - s.beat) * (s.tempo / 1000000)

/-- C2 (counterexample): the claim says a single time signature at time 0 with
numerator 4 and denominator not 4 yields has_explicit_time_signatures = true,
but the source never inspects the denominator: a lone (0, 4, 8) entry yields
false. -/
theorem C2_counterexample :
    (TempoMap.build [] [(0, 4, 8)]).has_explicit_time_signatures = false := by
  simp [TempoMap.build]

/-- C2 (amended): has_explicit_time_signatures is false exactly when the raw
time-signature list is empty, or contains a single entry whose time is 0 and
whose NUMERATOR is 4 - the denominator is ignored by the source.  Every other
list yields true. -/
theorem C2_has_explicit_time_signatures (tempo_events : List (ℚ × ℚ))
    (time_signatures : List (ℚ × ℚ × ℚ)) :
    (TempoMap.build tempo_events time_signatures).has_explicit_time_signatures = false ↔
      (time_signatures = [] ∨
        (time_signatures.length = 1 ∧ time_signatures.headI.1 = 0 ∧
          time_signatures.headI.2.1 = 4)) := by
  simp only [TempoMap.build, decide_eq_false_iff_not, ne_eq]
  tauto

/-- analysis.SectionAnalyzer._classify_pace_beats: notes-per-beat density. -/
def SectionAnalyzer.classify_pace_beats (notes : List Note)
    (start_beat end_beat : ℚ) : String :=
  let duration_beats := end_beat - start_beat
  if duration_beats ≤ 0 then "normal"
  else
    let npb := (notes.length : ℚ) / duration_beats
    if 7/2 < npb then "fast"
    else if npb < 1 then "slow"
    else "normal"

/-- Pair loop of analysis.SectionAnalyzer._classify_bass_articulation: folds
(total_overlap, total_possible) over consecutive pairs of the sorted
left-hand notes, skipping pairs with non-positive inter-onset interval. -/
def articulation_fold (tm : TempoMap) :
    ℚ → ℚ → Note → List Note → ℚ × ℚ
  | total_overlap, total_possible, _, [] => (total_overlap, total_possible)
  | total_overlap, total_possible, curr, next :: rest =>
    let curr_beat := tm.time_to_beat curr.start_time
    let next_beat := tm.time_to_beat next.start_time
    let ioi_beats := next_beat - curr_beat
    if ioi_beats ≤ 0 then articulation_fold tm total_overlap total_possible next rest
    else
      let dur_beats := tm.time_to_beat curr.end_time - curr_beat
      articulation_fold tm (total_overlap + min (dur_beats / ioi_beats) (6/5))
        (total_possible + 1) next rest

/-- analysis.SectionAnalyzer._classify_bass_articulation: average capped
duration/inter-onset ratio of consecutive left-hand notes; legato when fewer
than 2 left-hand notes or when every pair was skipped. -/
def SectionAnalyzer.classify_bass_articulation (tm : TempoMap)
    (notes : List Note) : String :=
  let lh_notes := notes.filter (fun n => n.hand = "left")
  if lh_notes.length < 2 then "legato"
  else
    match lh_notes.mergeSort (fun a b => a.start_time ≤ b.start_time) with
    | [] => "legato"
    | first :: rest =>
      let tp := articulation_fold tm 0 0 first rest
      if tp.2 = 0 then "legato"
      else
        let avg := tp.1 / tp.2
        if 19/20 ≤ avg then "legato"
        else if avg ≤ 3/5 then "staccato"
        else "hybrid"

theorem articulation_fold_skip_all (tm : TempoMap) (rest : List Note) :
    ∀ first : Note, ∀ a b : ℚ,
    List.Chain' (fun x y =>
      tm.time_to_beat y.start_time - tm.time_to_beat x.start_time ≤ 0) (first :: rest) →
    articulation_fold tm a b first rest = (a, b) := by
  induction rest with
  | nil => intro first a b _; rfl
  | cons next rest ih =>
    intro first a b hchain
    rw [articulation_fold]
    rw [List.chain'_cons] at hchain
    simp only [hchain.1, if_pos]
    exact ih next a b hchain.2

/-- C10: classify_bass_articulation returns legato whenever no consecutive
pair of the sorted left-hand notes has strictly positive inter-onset interval
in beats: every pair is skipped by the `ioi_beats <= 0` guard, the zero-pair
case (and the fewer-than-2 case) defaults to legato. -/
theorem C10_all_nonpositive_ioi_legato (tm : TempoMap) (notes : List Note)
    (hioi : List.Chain' (fun x y =>
        tm.time_to_beat y.start_time - tm.time_to_beat x.start_time ≤ 0)
      ((notes.filter (fun n => n.hand = "left")).mergeSort
        (fun a b => a.start_time ≤ b.start_time))) :
    SectionAnalyzer.classify_bass_articulation tm notes = "legato" := by
  rw [SectionAnalyzer.classify_bass_articulation]
  split
  · rfl
  · split
    · rfl
    · rename_i first rest heq
      rw [heq] at hioi
      simp only [articulation_fold_skip_all tm rest first 0 0 hioi]
      norm_num

/-- Concrete single bass chord: two left-hand notes starting simultaneously. -/
def c10n0 : Note := ⟨0, 40, 100, 2, 1, "left", 0, 0⟩

def c10n1 : Note := ⟨1, 47, 100, 2, 1, "left", 0, 0⟩

/-- Witness for C10 at a single two-note bass chord (both onsets at 2 s). -/
theorem C10_witness :
    SectionAnalyzer.classify_bass_articulation (TempoMap.build [] []) [c10n0, c10n1] =
      "legato" := by
  refine C10_all_nonpositive_ioi_legato _ _ ?_
  have hfilter : [c10n0, c10n1].filter (fun n => n.hand = "left") = [c10n0, c10n1] := by
    norm_num [c10n0, c10n1]
  rw [hfilter, List.mergeSort_of_sorted (by norm_num [c10n0, c10n1])]
  simp [c10n0, c10n1]

/-- Python max() over a list of rationals (0 on the empty list, which raises
in Python and is never reached by the source callers). -/
def pyMaxQ : List ℚ → ℚ
  | [] => 0
  | x :: rest => rest.foldl max x

/-- Inner loop of TempoMap.get_measure_boundaries: resolve the active time
signature as the last entry with time <= t + 0.001 before the first entry
that is not (the source breaks at the first failure). -/
def active_ts_go (t : ℚ) : List (ℚ × ℚ × ℚ) → (ℚ × ℚ × ℚ) → ℚ × ℚ × ℚ
  | [], active => active
  | ts :: rest, active =>
    if ts.1 ≤ t + 1/1000 then active_ts_go t rest ts else active

/-- While-loop of TempoMap.get_measure_boundaries, with explicit fuel. -/
def measures_loop (tm : TempoMap) (ts_list : List (ℚ × ℚ × ℚ)) (total_beats : ℚ)
    (fuel : ℕ) (beat : ℚ) : List (ℚ × ℚ) :=
  if fuel = 0 then []
  else if beat < total_beats then
    let t := tm.beat_to_time beat
    let active := active_ts_go t ts_list ts_list.headI
    let measure_beats := active.2.1 * (4 / active.2.2)
    let end_beat := beat + measure_beats
    (t, tm.beat_to_time end_beat) ::
      measures_loop tm ts_list total_beats (fuel - 1) end_beat
  else []
termination_by fuel
decreasing_by
· omega

/-- core.TempoMap.get_measure_boundaries (fuel bounds the while loop; the two
agree whenever the Python loop makes at most fuel iterations). -/
def TempoMap.get_measure_boundaries (tm : TempoMap) (fuel : ℕ)
    (total_duration : ℚ) : List (ℚ × ℚ) :=
  let ts_list :=
    if tm.time_signatures = [] then [((0:ℚ), (4:ℚ), (4:ℚ))] else tm.time_signatures
  measures_loop tm ts_list (tm.time_to_beat total_duration) fuel 0

/-- classify_chunk helper nested in SectionAnalyzer._analyze_by_measures. -/
def SectionAnalyzer.classify_chunk (tm : TempoMap) (chunk_notes : List Note)
    (s_time e_time : ℚ) : String × String :=
  (SectionAnalyzer.classify_bass_articulation tm chunk_notes,
   SectionAnalyzer.classify_pace_beats chunk_notes (tm.time_to_beat s_time)
     (tm.time_to_beat e_time))

/-- Mutable locals of the SectionAnalyzer._analyze_by_measures loop:
current_section_start, current_notes_in_section, (prev_style, prev_pace)
(None before the first measure), and the flushed sections. -/
structure MeasureState where
  current_section_start : ℚ
  current_notes_in_section : List Note
  prev : Option (String × String)
  sections : List MusicalSection
deriving DecidableEq

/-- One iteration of the SectionAnalyzer._analyze_by_measures measure loop
(the (m_start, m_end) measure pair is unpacked at the fold site, as in the
source loop header). -/
def SectionAnalyzer.measure_step (tm : TempoMap) (notes : List Note)
    (st : MeasureState) (m_start m_end : ℚ) : MeasureState :=
  let notes_in_measure :=
    notes.filter (fun n => m_start ≤ n.start_time ∧ n.start_time < m_end)
  let sp : String × String :=
    if notes_in_measure = [] then
      ((st.prev.map Prod.fst).getD "legato", (st.prev.map Prod.snd).getD "normal")
    else SectionAnalyzer.classify_chunk tm notes_in_measure m_start m_end
  match st.prev with
  | none =>
    { st with
      prev := some sp
      current_notes_in_section := st.current_notes_in_section ++ notes_in_measure }
  | some pv =>
    if sp.1 ≠ pv.1 then
      let sections2 :=
        if st.current_notes_in_section ≠ [] then
          st.sections ++
            [⟨st.current_section_start, m_start, st.current_notes_in_section,
              pv.1, pv.2, tm.time_to_beat st.current_section_start,
              tm.time_to_beat m_start⟩]
        else st.sections
      { current_section_start := m_start
        current_notes_in_section := notes_in_measure
        prev := some sp
        sections := sections2 }
    else
      { st with
        current_notes_in_section := st.current_notes_in_section ++ notes_in_measure }

/-- analysis.SectionAnalyzer._analyze_by_measures: fold the measure loop, then
flush the final run using the last measure's end time. -/
def SectionAnalyzer.analyze_by_measures (tm : TempoMap) (fuel : ℕ)
    (notes : List Note) : List MusicalSection :=
  let total_dur := pyMaxQ (notes.map Note.end_time)
  let measures := tm.get_measure_boundaries fuel total_dur
  let init : MeasureState := ⟨measures.headI.1, [], none, []⟩
  let final := measures.foldl
    (fun st m => SectionAnalyzer.measure_step tm notes st m.1 m.2) init
  if final.current_notes_in_section ≠ [] then
    final.sections ++
      [⟨final.current_section_start, (measures.getLastD (0, 0)).2,
        final.current_notes_in_section,
        ((final.prev.map Prod.fst).getD "legato"),
        ((final.prev.map Prod.snd).getD "normal"),
        tm.time_to_beat final.current_section_start,
        tm.time_to_beat (measures.getLastD (0, 0)).2⟩]
  else final.sections

theorem bisect_go_single (q x : ℚ) : bisect_go [q] x 0 1 = if x < q then 0 else 1 := by
  simp [bisect_go]

/-- The default-tempo map built with no tempo events and a lone 4/4 signature:
its single segment is (time 0, beat 0, 500000 microseconds per quarter). -/
theorem c3_build_eq :
    TempoMap.build [] [(0, 4, 4)] = ⟨[], [(0, 4, 4)], [⟨0, 0, 500000⟩], false⟩ := by
  simp [TempoMap.build, build_segments_go]

theorem c3_time_to_beat (t : ℚ) (ht : 0 ≤ t) :
    (TempoMap.build [] [(0, 4, 4)]).time_to_beat t = 2 * t := by
  rw [c3_build_eq, TempoMap.time_to_beat]
  simp only [List.map_cons, List.map_nil, bisect_right, List.length_cons, List.length_nil]
  rw [show ((0:ℕ) + 1) = 1 from rfl, bisect_go_single, if_neg (not_lt.mpr ht)]
  norm_num
  ring

theorem c3_beat_to_time (b : ℚ) (hb : 0 ≤ b) :
    (TempoMap.build [] [(0, 4, 4)]).beat_to_time b = b / 2 := by
  rw [c3_build_eq, TempoMap.beat_to_time]
  simp only [List.map_cons, List.map_nil, bisect_right, List.length_cons, List.length_nil]
  rw [show ((0:ℕ) + 1) = 1 from rfl, bisect_go_single, if_neg (not_lt.mpr hb)]
  norm_num
  ring

theorem c3_time_signatures :
    (TempoMap.build [] [(0, 4, 4)]).time_signatures = [(0, 4, 4)] := by
  rw [c3_build_eq]

/-- C3 scenario, measure 1 (0-2 s): one left-hand note => legato, pace slow. -/
def c3a1 : Note := ⟨0, 50, 100, 0, 1, "left", 0, 0⟩

/-- C3 scenario, measure 2 (2-4 s): eight right-hand notes => legato, normal. -/
def c3r1 : Note := ⟨1, 70, 100, 2, 1/10, "right", 0, 0⟩

def c3r2 : Note := ⟨2, 71, 100, 11/5, 1/10, "right", 0, 0⟩

def c3r3 : Note := ⟨3, 72, 100, 12/5, 1/10, "right", 0, 0⟩

def c3r4 : Note := ⟨4, 73, 100, 13/5, 1/10, "right", 0, 0⟩

def c3r5 : Note := ⟨5, 74, 100, 14/5, 1/10, "right", 0, 0⟩

def c3r6 : Note := ⟨6, 75, 100, 3, 1/10, "right", 0, 0⟩

def c3r7 : Note := ⟨7, 76, 100, 16/5, 1/10, "right", 0, 0⟩

def c3r8 : Note := ⟨8, 77, 100, 17/5, 1/10, "right", 0, 0⟩

/-- C3 scenario, measure 3 (4-6 s): two short left-hand notes => staccato. -/
def c3b1 : Note := ⟨9, 40, 100, 4, 1/5, "left", 0, 0⟩

def c3b2 : Note := ⟨10, 41, 100, 5, 1/5, "left", 0, 0⟩

def c3notes : List Note :=
  [c3a1, c3r1, c3r2, c3r3, c3r4, c3r5, c3r6, c3r7, c3r8, c3b1, c3b2]

theorem c3_msort :
    ([c3b1, c3b2].mergeSort fun a b => a.start_time ≤ b.start_time) = [c3b1, c3b2] :=
  List.mergeSort_of_sorted (by norm_num [c3b1, c3b2])

theorem measures_loop_stop (tm : TempoMap) (ts : List (ℚ × ℚ × ℚ)) (tb : ℚ)
    (fuel : ℕ) (beat : ℚ) (hge : ¬ beat < tb) :
    measures_loop tm ts tb fuel beat = [] := by
  rw [measures_loop]
  simp [hge]

theorem c3_loop_cons (tb : ℚ) (fuel : ℕ) (beat : ℚ) (hf : fuel ≠ 0)
    (hlt : beat < tb) (hb : 0 ≤ beat) :
    measures_loop (TempoMap.build [] [(0, 4, 4)]) [(0, 4, 4)] tb fuel beat =
      (beat / 2, (beat + 4) / 2) ::
        measures_loop (TempoMap.build [] [(0, 4, 4)]) [(0, 4, 4)] tb (fuel - 1)
          (beat + 4) := by
  have hts : active_ts_go ((TempoMap.build [] [(0, 4, 4)]).beat_to_time beat)
      [(0, 4, 4)] (List.headI [(0, 4, 4)]) = (0, 4, 4) := by
    rw [c3_beat_to_time beat hb]
    simp only [List.headI, active_ts_go]
    rw [if_pos (by linarith)]
  rw [measures_loop, if_neg hf, if_pos hlt]
  simp only [hts]
  norm_num [c3_beat_to_time beat hb,
    c3_beat_to_time (beat + 4) (by linarith : (0:ℚ) ≤ beat + 4)]

theorem c3_measures :
    (TempoMap.build [] [(0, 4, 4)]).get_measure_boundaries 5 (26/5) =
      [(0, 2), (2, 4), (4, 6)] := by
  rw [TempoMap.get_measure_boundaries, c3_time_signatures]
  have htb : (TempoMap.build [] [(0, 4, 4)]).time_to_beat (26/5) = 52/5 := by
    rw [c3_time_to_beat (26/5) (by norm_num)]
    norm_num
  simp only [htb, ite_self]
  rw [c3_loop_cons (52/5) 5 0 (by norm_num) (by norm_num) (le_refl 0)]
  rw [c3_loop_cons (52/5) (5-1) (0+4) (by norm_num) (by norm_num) (by norm_num)]
  rw [c3_loop_cons (52/5) (5-1-1) (0+4+4) (by norm_num) (by norm_num) (by norm_num)]
  rw [measures_loop_stop _ _ _ _ _ (by norm_num)]
  norm_num

theorem c3_f1 :
    c3notes.filter (fun n => (0:ℚ) ≤ n.start_time ∧ n.start_time < 2) = [c3a1] := by
  norm_num [c3notes, c3a1, c3r1, c3r2, c3r3, c3r4, c3r5, c3r6, c3r7, c3r8, c3b1,
    c3b2]

theorem c3_f2 :
    c3notes.filter (fun n => (2:ℚ) ≤ n.start_time ∧ n.start_time < 4) =
      [c3r1, c3r2, c3r3, c3r4, c3r5, c3r6, c3r7, c3r8] := by
  norm_num [c3notes, c3a1, c3r1, c3r2, c3r3, c3r4, c3r5, c3r6, c3r7, c3r8, c3b1,
    c3b2]

theorem c3_f3 :
    c3notes.filter (fun n => (4:ℚ) ≤ n.start_time ∧ n.start_time < 6) =
      [c3b1, c3b2] := by
  norm_num [c3notes, c3a1, c3r1, c3r2, c3r3, c3r4, c3r5, c3r6, c3r7, c3r8, c3b1,
    c3b2]

theorem c3_m1 :
    SectionAnalyzer.classify_chunk (TempoMap.build [] [(0, 4, 4)]) [c3a1] 0 2 =
      ("legato", "slow") := by
  rw [SectionAnalyzer.classify_chunk, c3_time_to_beat 0 (le_refl 0),
    c3_time_to_beat 2 (by norm_num)]
  norm_num [SectionAnalyzer.classify_bass_articulation,
    SectionAnalyzer.classify_pace_beats, List.filter_cons, List.filter_nil, c3a1]

theorem c3_m2 :
    SectionAnalyzer.classify_chunk (TempoMap.build [] [(0, 4, 4)])
      [c3r1, c3r2, c3r3, c3r4, c3r5, c3r6, c3r7, c3r8] 2 4 = ("legato", "normal") := by
  rw [SectionAnalyzer.classify_chunk, c3_time_to_beat 2 (by norm_num),
    c3_time_to_beat 4 (by norm_num)]
  norm_num [SectionAnalyzer.classify_bass_articulation,
    SectionAnalyzer.classify_pace_beats, List.filter_cons, List.filter_nil, c3r1,
    c3r2, c3r3, c3r4, c3r5, c3r6, c3r7, c3r8]
  all_goals simp

theorem c3_m3 :
    SectionAnalyzer.classify_chunk (TempoMap.build [] [(0, 4, 4)]) [c3b1, c3b2] 4 6 =
      ("staccato", "slow") := by
  have hh1 : c3b1.hand = "left" := rfl
  have hh2 : c3b2.hand = "left" := rfl
  have hs1 : c3b1.start_time = 4 := rfl
  have hs2 : c3b2.start_time = 5 := rfl
  have he1 : c3b1.end_time = 21/5 := by norm_num [c3b1, Note.end_time]
  rw [SectionAnalyzer.classify_chunk, c3_time_to_beat 4 (by norm_num),
    c3_time_to_beat 6 (by norm_num)]
  norm_num [SectionAnalyzer.classify_bass_articulation,
    SectionAnalyzer.classify_pace_beats, List.filter_cons, List.filter_nil, hh1, hh2, c3_msort,
    articulation_fold, hs1, hs2, he1, c3_time_to_beat, min_def]

theorem c3_step1 :
    SectionAnalyzer.measure_step (TempoMap.build [] [(0, 4, 4)]) c3notes
      ⟨0, [], none, []⟩ 0 2 = ⟨0, [c3a1], some ("legato", "slow"), []⟩ := by
  rw [SectionAnalyzer.measure_step]
  simp only [c3_f1, c3_m1, ne_eq, reduceCtorEq, not_false_eq_true, if_neg,
    List.nil_append]

theorem c3_step2 :
    SectionAnalyzer.measure_step (TempoMap.build [] [(0, 4, 4)]) c3notes
      ⟨0, [c3a1], some ("legato", "slow"), []⟩ 2 4 =
      ⟨0, [c3a1, c3r1, c3r2, c3r3, c3r4, c3r5, c3r6, c3r7, c3r8],
        some ("legato", "slow"), []⟩ := by
  rw [SectionAnalyzer.measure_step]
  simp only [c3_f2, c3_m2, ne_eq, reduceCtorEq, not_false_eq_true, if_neg]
  norm_num

theorem c3_step3 :
    SectionAnalyzer.measure_step (TempoMap.build [] [(0, 4, 4)]) c3notes
      ⟨0, [c3a1, c3r1, c3r2, c3r3, c3r4, c3r5, c3r6, c3r7, c3r8],
        some ("legato", "slow"), []⟩ 4 6 =
      ⟨4, [c3b1, c3b2], some ("staccato", "slow"),
        [⟨0, 4, [c3a1, c3r1, c3r2, c3r3, c3r4, c3r5, c3r6, c3r7, c3r8],
          "legato", "slow", 0, 8⟩]⟩ := by
  rw [SectionAnalyzer.measure_step]
  simp only [c3_f3, c3_m3, ne_eq, reduceCtorEq, not_false_eq_true, if_neg]
  rw [c3_time_to_beat 0 (le_refl 0), c3_time_to_beat 4 (by norm_num)]
  norm_num
  simp

/-- C3: in measure-based section analysis on a concrete three-measure piece
whose measures classify as legato(slow) / legato(normal) / staccato(slow), the
first two measures are merged into a single section carrying measure 1's style
AND measure 1's pace ("slow" - not the pace "normal" a recomputation over the
merged 0-4 s span would give, since 9 notes / 8 beats = 1.125 notes per beat),
and a new section starts exactly at measure 3's start (4 s); the final run is
flushed with the last measure's end time (6 s). -/
theorem C3_measure_merge :
    SectionAnalyzer.analyze_by_measures (TempoMap.build [] [(0, 4, 4)]) 5 c3notes =
      [⟨0, 4, [c3a1, c3r1, c3r2, c3r3, c3r4, c3r5, c3r6, c3r7, c3r8],
        "legato", "slow", 0, 8⟩,
       ⟨4, 6, [c3b1, c3b2], "staccato", "slow", 8, 12⟩] := by
  rw [SectionAnalyzer.analyze_by_measures]
  have hmax : pyMaxQ (c3notes.map Note.end_time) = 26/5 := by
    norm_num [c3notes, pyMaxQ, Note.end_time, c3a1, c3r1, c3r2, c3r3, c3r4, c3r5,
      c3r6, c3r7, c3r8, c3b1, c3b2, max_def]
  rw [hmax, c3_measures]
  have hlast : ([((0:ℚ), (2:ℚ)), (2, 4), (4, 6)]).getLastD ((0:ℚ), (0:ℚ)) = (4, 6) := by
    simp
  simp only [List.headI, List.foldl_cons, List.foldl_nil, c3_step1, c3_step2,
    c3_step3, hlast]
  rw [c3_time_to_beat 4 (by norm_num), c3_time_to_beat 6 (by norm_num)]
  norm_num
  simp

/-- Python max(n.end_time for n in notes) over a non-empty driver list. -/
def max_end_time (first : Note) (rest : List Note) : ℚ :=
  (rest.map Note.end_time).foldl max first.end_time

/-- analysis.PedalGenerator SAFE_INTERVALS constant. -/
def SAFE_INTERVALS : List ℕ := [0, 3, 4, 5, 7]

/-- analysis.PedalGenerator UNSAFE_INTERVALS constant. -/
def UNSAFE_INTERVALS : List ℕ := [1, 6]

/-- Events the adaptive driver emits between consecutive driver notes curr and
next (the body of one loop iteration of _generate_adaptive_pedal_driver, minus
the i == 0 initial engage and the final disengage): gap check, then the
SAFE / UNSAFE / gray-area interval chain setting should_repedal. -/
def adaptive_pair_events (curr next : Note) : List KeyEvent :=
  let gap := next.start_time - curr.end_time
  if gap > 7/20 then
    [⟨curr.end_time, 0, "pedal", "up", none, 100⟩,
     ⟨next.start_time, 1, "pedal", "down", none, 100⟩]
  else
    let interval := (next.pitch - curr.pitch).natAbs % 12
    let should_repedal :=
      if interval ∈ SAFE_INTERVALS then false
      else if interval ∈ UNSAFE_INTERVALS then true
      else false
    if should_repedal then
      [⟨next.start_time, 0, "pedal", "up", none, 100⟩,
       ⟨next.start_time + 1/20, 1, "pedal", "down", none, 100⟩]
    else []

/-- Iteration over consecutive driver-note pairs. -/
def adaptive_loop : Note → List Note → List KeyEvent
  | _, [] => []
  | curr, next :: rest => adaptive_pair_events curr next ++ adaptive_loop next rest

/-- analysis.PedalGenerator._generate_adaptive_pedal_driver. -/
def PedalGenerator.generate_adaptive_pedal_driver : List Note → List KeyEvent
  | [] => []
  | first :: rest =>
    ⟨first.start_time, 1, "pedal", "down", none, 100⟩ ::
      (adaptive_loop first rest ++
        [⟨max_end_time first rest, 0, "pedal", "up", none, 100⟩])

/-- Loop of analysis.PedalGenerator._generate_harmonic_pedal from the second
note on: the tracked bass pitch always equals the previous note's pitch. -/
def PedalGenerator.harmonic_loop : Note → List Note → List KeyEvent
  | _, [] => []
  | prev, n :: rest =>
    (if n.start_time - prev.end_time > 3/20 then
       [⟨prev.end_time, 0, "pedal", "up", none, 100⟩,
        ⟨n.start_time, 1, "pedal", "down", none, 100⟩]
     else if n.pitch ≠ prev.pitch then
       [⟨n.start_time, 0, "pedal", "up", none, 100⟩,
        ⟨n.start_time, 1, "pedal", "down", none, 100⟩]
     else []) ++ PedalGenerator.harmonic_loop n rest

/-- analysis.PedalGenerator._generate_harmonic_pedal (returns the events the
source appends to its events argument). -/
def PedalGenerator.generate_harmonic_pedal : List Note → List KeyEvent
  | [] => []
  | first :: rest =>
    ⟨first.start_time, 1, "pedal", "down", none, 100⟩ ::
      (PedalGenerator.harmonic_loop first rest ++
        [⟨max_end_time first rest, 0, "pedal", "up", none, 100⟩])

/-- Per-section events of PedalGenerator.generate_events for the non-hybrid
styles: conservative whole-section pair when the section has no left-hand
notes, per-cluster pairs for rhythmic, harmonic pedal otherwise. -/
def PedalGenerator.section_events (style : String)
    (sec : MusicalSection) : List KeyEvent :=
  let lh_notes := (sec.notes.filter (fun n => n.hand = "left")).mergeSort
      (fun a b => a.start_time ≤ b.start_time)
  if lh_notes = [] then
    [⟨sec.notes.headI.start_time, 1, "pedal", "down", none, 100⟩,
     ⟨pyMaxQ (sec.notes.map Note.end_time), 0, "pedal", "up", none, 100⟩]
  else if style = "rhythmic" then
    (get_time_groups lh_notes (15/1000)).flatMap (fun g =>
      [⟨g.headI.start_time, 1, "pedal", "down", none, 100⟩,
       ⟨pyMaxQ (g.map Note.end_time), 0, "pedal", "up", none, 100⟩])
  else PedalGenerator.generate_harmonic_pedal lh_notes

/-- analysis.PedalGenerator.generate_events (config is read only for
pedal_style, passed here directly). -/
def PedalGenerator.generate_events (style : String) (final_notes : List Note)
    (sections : List MusicalSection) : List KeyEvent :=
  if style = "none" then []
  else if style = "hybrid" then
    let bass_notes := (final_notes.filter (fun n => n.hand = "left")).mergeSort
        (fun a b => a.start_time ≤ b.start_time)
    if bass_notes = [] then
      PedalGenerator.generate_adaptive_pedal_driver
        ((final_notes.filter (fun n => n.hand = "right")).mergeSort
          (fun a b => a.start_time ≤ b.start_time))
    else PedalGenerator.generate_adaptive_pedal_driver bass_notes
  else sections.flatMap (PedalGenerator.section_events style)

/-- The between-pair pedal events exactly as claim C5 words them: gap > 0.35 s
forces disengage at curr.end and re-engage at next.start; otherwise interval
mod 12 in the set containing 1 and 6 forces disengage at next.start and
re-engage 0.05 s later; otherwise (safe set or any other interval) nothing. -/
def c5_pair_spec (curr next : Note) : List KeyEvent :=
  if next.start_time - curr.end_time > 7/20 then
    [⟨curr.end_time, 0, "pedal", "up", none, 100⟩,
     ⟨next.start_time, 1, "pedal", "down", none, 100⟩]
  else if (next.pitch - curr.pitch).natAbs % 12 = 1 ∨
      (next.pitch - curr.pitch).natAbs % 12 = 6 then
    [⟨next.start_time, 0, "pedal", "up", none, 100⟩,
     ⟨next.start_time + 1/20, 1, "pedal", "down", none, 100⟩]
  else []

theorem adaptive_pair_events_eq_spec (curr next : Note) :
    adaptive_pair_events curr next = c5_pair_spec curr next := by
  rw [adaptive_pair_events, c5_pair_spec]
  split
  · rfl
  · by_cases hs : (next.pitch - curr.pitch).natAbs % 12 ∈ SAFE_INTERVALS
    · have hne : ¬ ((next.pitch - curr.pitch).natAbs % 12 = 1 ∨
          (next.pitch - curr.pitch).natAbs % 12 = 6) := by
        simp only [SAFE_INTERVALS, List.mem_cons, List.not_mem_nil, or_false] at hs
        rcases hs with h | h | h | h | h <;> simp [h]
      simp [hs, hne]
    · by_cases hu : (next.pitch - curr.pitch).natAbs % 12 ∈ UNSAFE_INTERVALS
      · have heq : (next.pitch - curr.pitch).natAbs % 12 = 1 ∨
            (next.pitch - curr.pitch).natAbs % 12 = 6 := by
          simpa [UNSAFE_INTERVALS] using hu
        simp [hs, hu, heq]
      · have hne : ¬ ((next.pitch - curr.pitch).natAbs % 12 = 1 ∨
            (next.pitch - curr.pitch).natAbs % 12 = 6) := by
          simpa [UNSAFE_INTERVALS] using hu
        simp [hs, hu, hne]

theorem adaptive_loop_eq_spec (rest : List Note) :
    ∀ first : Note,
    adaptive_loop first rest =
      ((first :: rest).zip rest).flatMap (fun p => c5_pair_spec p.1 p.2) := by
  induction rest with
  | nil => intro first; simp [adaptive_loop]
  | cons next rest ih =>
    intro first
    rw [adaptive_loop, List.zip_cons_cons, List.flatMap_cons,
      adaptive_pair_events_eq_spec, ih next]

/-- C5: the adaptive pedal driver on a non-empty driver list is exactly: an
engage at the first note's start, then, for every consecutive pair, the events
of c5_pair_spec (gap > 0.35 s: disengage at current end and re-engage at next
start; otherwise interval mod 12 = 1 or 6: disengage at next start and
re-engage 0.05 s later; otherwise - safe set 0,3,4,5,7 or any other interval -
no event), and a final disengage at the maximum end time over all driver
notes. -/
theorem C5_adaptive_driver (first : Note) (rest : List Note) :
    PedalGenerator.generate_adaptive_pedal_driver (first :: rest) =
      ⟨first.start_time, 1, "pedal", "down", none, 100⟩ ::
        (((first :: rest).zip rest).flatMap (fun p => c5_pair_spec p.1 p.2) ++
          [⟨max_end_time first rest, 0, "pedal", "up", none, 100⟩]) := by
  rw [PedalGenerator.generate_adaptive_pedal_driver, adaptive_loop_eq_spec]

/-- Claim C6's press/release priority discipline: a pedal press carries
priority 1, a pedal release priority 0 (the source encodes the direction in
key_char, with action = "pedal"). -/
def pedal_inv (e : KeyEvent) : Prop :=
  (e.key_char = "down" → e.priority = 1) ∧ (e.key_char = "up" → e.priority = 0)

/-- The (time, priority) lexicographic order the KeyEvent dataclass sorts by
(the remaining fields have compare=False). -/
def key_event_le (a b : KeyEvent) : Bool :=
  a.time < b.time ∨ (a.time = b.time ∧ a.priority ≤ b.priority)

/-- Sorting the event sequence ascending by (time, priority). -/
def sort_key_events (events : List KeyEvent) : List KeyEvent :=
  events.mergeSort key_event_le

theorem key_event_le_trans (a b c : KeyEvent) (h1 : key_event_le a b = true)
    (h2 : key_event_le b c = true) : key_event_le a c = true := by
  simp only [key_event_le, decide_eq_true_eq] at h1 h2 ⊢
  rcases h1 with h1 | ⟨h1, hp1⟩ <;> rcases h2 with h2 | ⟨h2, hp2⟩
  · exact Or.inl (lt_trans h1 h2)
  · exact Or.inl (h2 ▸ h1)
  · exact Or.inl (h1 ▸ h2)
  · exact Or.inr ⟨h1.trans h2, le_trans hp1 hp2⟩

theorem key_event_le_total (a b : KeyEvent) :
    (key_event_le a b || key_event_le b a) = true := by
  simp only [key_event_le, Bool.or_eq_true, decide_eq_true_eq]
  rcases lt_trichotomy a.time b.time with h | h | h
  · exact Or.inl (Or.inl h)
  · rcases le_total a.priority b.priority with hp | hp
    · exact Or.inl (Or.inr ⟨h, hp⟩)
    · exact Or.inr (Or.inr ⟨h.symm, hp⟩)
  · exact Or.inr (Or.inl h)

theorem pedal_inv_adaptive_pair (curr next : Note) :
    ∀ e ∈ adaptive_pair_events curr next, pedal_inv e := by
  intro e he
  rw [adaptive_pair_events_eq_spec, c5_pair_spec] at he
  split at he
  · simp only [List.mem_cons, List.not_mem_nil, or_false] at he
    rcases he with he | he <;> subst he <;> simp [pedal_inv]
  · split at he
    · simp only [List.mem_cons, List.not_mem_nil, or_false] at he
      rcases he with he | he <;> subst he <;> simp [pedal_inv]
    · simp at he

theorem pedal_inv_adaptive_loop (rest : List Note) :
    ∀ first : Note, ∀ e ∈ adaptive_loop first rest, pedal_inv e := by
  induction rest with
  | nil => intro first e he; simp [adaptive_loop] at he
  | cons next rest ih =>
    intro first e he
    rw [adaptive_loop] at he
    rcases List.mem_append.mp he with he | he
    · exact pedal_inv_adaptive_pair first next e he
    · exact ih next e he

theorem pedal_inv_adaptive_driver (notes : List Note) :
    ∀ e ∈ PedalGenerator.generate_adaptive_pedal_driver notes, pedal_inv e := by
  cases notes with
  | nil => intro e he; simp [PedalGenerator.generate_adaptive_pedal_driver] at he
  | cons first rest =>
    intro e he
    rw [PedalGenerator.generate_adaptive_pedal_driver] at he
    rcases List.mem_cons.mp he with he | he
    · subst he; simp [pedal_inv]
    · rcases List.mem_append.mp he with he | he
      · exact pedal_inv_adaptive_loop rest first e he
      · simp only [List.mem_singleton] at he
        subst he; simp [pedal_inv]

theorem pedal_inv_harmonic_loop (rest : List Note) :
    ∀ prev : Note, ∀ e ∈ PedalGenerator.harmonic_loop prev rest, pedal_inv e := by
  induction rest with
  | nil => intro prev e he; simp [PedalGenerator.harmonic_loop] at he
  | cons n rest ih =>
    intro prev e he
    rw [PedalGenerator.harmonic_loop] at he
    rcases List.mem_append.mp he with he | he
    · split at he
      · simp only [List.mem_cons, List.not_mem_nil, or_false] at he
        rcases he with he | he <;> subst he <;> simp [pedal_inv]
      · split at he
        · simp only [List.mem_cons, List.not_mem_nil, or_false] at he
          rcases he with he | he <;> subst he <;> simp [pedal_inv]
        · simp at he
    · exact ih n e he

theorem pedal_inv_harmonic (notes : List Note) :
    ∀ e ∈ PedalGenerator.generate_harmonic_pedal notes, pedal_inv e := by
  cases notes with
  | nil => intro e he; simp [PedalGenerator.generate_harmonic_pedal] at he
  | cons first rest =>
    intro e he
    rw [PedalGenerator.generate_harmonic_pedal] at he
    rcases List.mem_cons.mp he with he | he
    · subst he; simp [pedal_inv]
    · rcases List.mem_append.mp he with he | he
      · exact pedal_inv_harmonic_loop rest first e he
      · simp only [List.mem_singleton] at he
        subst he; simp [pedal_inv]

theorem pedal_inv_section_events (style : String) (sec : MusicalSection) :
    ∀ e ∈ PedalGenerator.section_events style sec, pedal_inv e := by
  intro e he
  simp only [PedalGenerator.section_events] at he
  split at he
  · simp only [List.mem_cons, List.not_mem_nil, or_false] at he
    rcases he with he | he <;> subst he <;> simp [pedal_inv]
  · split at he
    · rcases List.mem_flatMap.mp he with ⟨g, _, hg⟩
      simp only [List.mem_cons, List.not_mem_nil, or_false] at hg
      rcases hg with hg | hg <;> subst hg <;> simp [pedal_inv]
    · exact pedal_inv_harmonic _ e he

theorem pedal_inv_generate_events (style : String) (final_notes : List Note)
    (sections : List MusicalSection) :
    ∀ e ∈ PedalGenerator.generate_events style final_notes sections, pedal_inv e := by
  intro e he
  simp only [PedalGenerator.generate_events] at he
  split at he
  · simp at he
  · split at he
    · split at he <;> exact pedal_inv_adaptive_driver _ e he
    · rcases List.mem_flatMap.mp he with ⟨sec, _, hsec⟩
      exact pedal_inv_section_events style sec e hsec

/-- C6 instance: consecutive left-hand bass notes with a pitch change and zero
gap (second starts exactly when the first ends). -/
def c6n1 : Note := ⟨0, 40, 100, 0, 1, "left", 0, 0⟩

def c6n2 : Note := ⟨1, 45, 100, 1, 1, "left", 0, 0⟩

def c6sec : MusicalSection := ⟨0, 2, [c6n1, c6n2], "legato", "normal", 0, 4⟩

theorem c6_instance_events :
    PedalGenerator.generate_events "harmonic" [c6n1, c6n2] [c6sec] =
      [⟨0, 1, "pedal", "down", none, 100⟩, ⟨1, 0, "pedal", "up", none, 100⟩,
       ⟨1, 1, "pedal", "down", none, 100⟩, ⟨2, 0, "pedal", "up", none, 100⟩] := by
  have hh1 : c6n1.hand = "left" := rfl
  have hh2 : c6n2.hand = "left" := rfl
  have hfilter : c6sec.notes.filter (fun n => n.hand = "left") = [c6n1, c6n2] := by
    simp [c6sec, List.filter_cons, List.filter_nil, hh1, hh2]
  have hms : ([c6n1, c6n2].mergeSort fun a b => a.start_time ≤ b.start_time) =
      [c6n1, c6n2] :=
    List.mergeSort_of_sorted (by norm_num [c6n1, c6n2])
  rw [PedalGenerator.generate_events]
  rw [if_neg (by simp), if_neg (by simp)]
  rw [List.flatMap_cons, List.flatMap_nil, List.append_nil]
  rw [PedalGenerator.section_events]
  simp only [hfilter, hms]
  rw [if_neg (by simp), if_neg (by simp)]
  rw [PedalGenerator.generate_harmonic_pedal, PedalGenerator.harmonic_loop,
    PedalGenerator.harmonic_loop]
  have hgap : ¬ (c6n2.start_time - c6n1.end_time > 3/20) := by
    norm_num [c6n1, c6n2, Note.end_time]
  have hpitch : c6n2.pitch ≠ c6n1.pitch := by norm_num [c6n1, c6n2]
  rw [if_neg hgap, if_pos hpitch]
  norm_num [max_end_time, c6n1, c6n2, Note.end_time, max_def]

/-- C6: every pedal event sequence from generate_events carries priority 1 on
presses (key_char "down") and 0 on releases (key_char "up"); consequently the
sequence sorted ascending by (time, priority) never places a press before a
release sharing the same timestamp.  In particular the harmonic-pedal
bass-pitch change with zero gap emits a disengage and a re-engage at the same
timestamp 1 s, the disengage sorting first. -/
theorem C6_pedal_order (style : String) (final_notes : List Note)
    (sections : List MusicalSection) :
    (∀ e ∈ PedalGenerator.generate_events style final_notes sections, pedal_inv e) ∧
    List.Pairwise
      (fun a b => ¬ (a.time = b.time ∧ a.key_char = "down" ∧ b.key_char = "up"))
      (sort_key_events (PedalGenerator.generate_events style final_notes sections)) ∧
    sort_key_events (PedalGenerator.generate_events "harmonic" [c6n1, c6n2] [c6sec]) =
      [⟨0, 1, "pedal", "down", none, 100⟩, ⟨1, 0, "pedal", "up", none, 100⟩,
       ⟨1, 1, "pedal", "down", none, 100⟩, ⟨2, 0, "pedal", "up", none, 100⟩] := by
  refine ⟨pedal_inv_generate_events style final_notes sections, ?_, ?_⟩
  · have hsorted :=
      List.sorted_mergeSort key_event_le_trans key_event_le_total
        (PedalGenerator.generate_events style final_notes sections)
    refine hsorted.imp_of_mem ?_
    intro a b ha hb hle
    rintro ⟨ht, hd, hu⟩
    have hina : a ∈ PedalGenerator.generate_events style final_notes sections :=
      List.mem_mergeSort.mp ha
    have hinb : b ∈ PedalGenerator.generate_events style final_notes sections :=
      List.mem_mergeSort.mp hb
    have hpa := (pedal_inv_generate_events style final_notes sections a hina).1 hd
    have hpb := (pedal_inv_generate_events style final_notes sections b hinb).2 hu
    simp only [key_event_le, decide_eq_true_eq] at hle
    rcases hle with hle | ⟨-, hle⟩
    · exact absurd ht (ne_of_lt hle)
    · rw [hpa, hpb] at hle
      norm_num at hle
  · rw [c6_instance_events]
    exact List.mergeSort_of_sorted (by norm_num [key_event_le, List.pairwise_cons])

/-- Python round(x) (banker's rounding: ties go to the even integer). -/
def pyRound (q : ℚ) : ℤ :=
  let f := ⌊q⌋
  let frac := q - f
  if frac < 1/2 then f
  else if 1/2 < frac then f + 1
  else if f % 2 = 0 then f else f + 1

/-- Python round(x, 2) used for resync-point lookup. -/
def round2 (q : ℚ) : ℚ := (pyRound (q * 100) : ℚ) / 100

/-- Humanizer feature flags and parameters read from the config dict. -/
structure HumanizerConfig where
  vary_timing : Bool
  vary_articulation : Bool
  enable_drift_correction : Bool
  enable_chord_roll : Bool
  timing_variance : ℚ
  articulation : ℚ
  drift_decay_factor : ℚ
deriving DecidableEq

/-- The Humanizer's two per-hand drift accumulator attributes. -/
structure HumanizerState where
  left_hand_drift : ℚ
  right_hand_drift : ℚ
deriving DecidableEq

/-- Per-note body of Humanizer.apply_to_hand's inner loop: add the group
timing offset, add the hand's current drift when drift correction is on,
multiply the duration by the group articulation and clamp it at 0.03 s. -/
def Humanizer.process_note (group_timing_offset current_drift : ℚ)
    (drift_on : Bool) (group_articulation : ℚ) (n : Note) : Note :=
  let st := n.start_time + group_timing_offset
  let st2 := if drift_on then st + current_drift else st
  let d := n.duration * group_articulation
  let d2 := if d < 3/100 then 3/100 else d
  { n with start_time := st2, duration := d2 }

/-- One simultaneity group of Humanizer.apply_to_hand: resync drift decay,
clamped Gaussian group offset, articulation perturbation, chord roll, the
per-note loop, then the drift accumulator update.  gauss_draw and unif_draw
are this group's draws of random.gauss(0, sigma) / random.random(). -/
def Humanizer.apply_group (cfg : HumanizerConfig) (hand : String)
    (resync_points : List ℚ) (gauss_draw unif_draw : ℚ)
    (st : HumanizerState) (group : List Note) : List Note × HumanizerState :=
  let is_resync_point := round2 group.headI.start_time ∈ resync_points
  let st1 :=
    if cfg.enable_drift_correction ∧ is_resync_point then
      if hand = "left" then
        { st with left_hand_drift := st.left_hand_drift * cfg.drift_decay_factor }
      else
        { st with right_hand_drift := st.right_hand_drift * cfg.drift_decay_factor }
    else st
  let group_timing_offset :=
    if cfg.vary_timing then
      max (-(3 * cfg.timing_variance)) (min (3 * cfg.timing_variance) gauss_draw)
    else 0
  let group_articulation :=
    if cfg.vary_articulation then cfg.articulation - unif_draw * (1/10)
    else cfg.articulation
  let group2 :=
    if cfg.enable_chord_roll ∧ 1 < group.length then
      (group.mergeSort (fun a b => a.pitch ≤ b.pitch)).mapIdx
        (fun i n => { n with start_time := n.start_time + (i : ℚ) * (6/1000) })
    else group
  let current_drift :=
    if hand = "left" then st1.left_hand_drift else st1.right_hand_drift
  let processed := group2.map
    (Humanizer.process_note group_timing_offset current_drift
      cfg.enable_drift_correction group_articulation)
  let st2 :=
    if cfg.enable_drift_correction then
      if hand = "left" then
        { st1 with left_hand_drift := st1.left_hand_drift + group_timing_offset }
      else
        { st1 with right_hand_drift := st1.right_hand_drift + group_timing_offset }
    else st1
  (processed, st2)

/-- Loop over simultaneity groups, threading the drift state; k indexes the
random draws (one gauss and one uniform draw per group). -/
def Humanizer.apply_groups (cfg : HumanizerConfig) (hand : String)
    (resync_points : List ℚ) (gauss_draws unif_draws : ℕ → ℚ) :
    ℕ → HumanizerState → List (List Note) → List Note × HumanizerState
  | _, st, [] => ([], st)
  | k, st, g :: gs =>
    let pg := Humanizer.apply_group cfg hand resync_points (gauss_draws k)
      (unif_draws k) st g
    let rest := Humanizer.apply_groups cfg hand resync_points gauss_draws
      unif_draws (k + 1) pg.2 gs
    (pg.1 ++ rest.1, rest.2)

/-- analysis.Humanizer.apply_to_hand: no-op guard over the four governing
flags, then the group loop over get_time_groups with the default 0.015 s
threshold. -/
def Humanizer.apply_to_hand (cfg : HumanizerConfig)
    (gauss_draws unif_draws : ℕ → ℚ) (notes : List Note) (hand : String)
    (resync_points : List ℚ) (st : HumanizerState) :
    List Note × HumanizerState :=
  if ¬ (cfg.vary_timing || cfg.vary_articulation || cfg.enable_drift_correction ||
      cfg.enable_chord_roll) then (notes, st)
  else
    Humanizer.apply_groups cfg hand resync_points gauss_draws unif_draws 0 st
      (get_time_groups notes (15/1000))

theorem process_note_duration (off dr : ℚ) (don : Bool) (ga : ℚ) (n : Note) :
    (Humanizer.process_note off dr don ga n).duration =
      if n.duration * ga < 3/100 then 3/100 else n.duration * ga := rfl

theorem clamp_ge (d : ℚ) : 3/100 ≤ if d < 3/100 then 3/100 else d := by
  split
  · norm_num
  · rename_i h
    exact le_of_not_lt h

theorem apply_groups_duration_floor (cfg : HumanizerConfig) (hand : String)
    (resync_points : List ℚ) (gauss_draws unif_draws : ℕ → ℚ) :
    ∀ gs : List (List Note), ∀ k : ℕ, ∀ st : HumanizerState,
    ∀ m ∈ (Humanizer.apply_groups cfg hand resync_points gauss_draws unif_draws
      k st gs).1, 3/100 ≤ m.duration := by
  intro gs
  induction gs with
  | nil => intro k st m hm; simp [Humanizer.apply_groups] at hm
  | cons g gs ih =>
    intro k st m hm
    simp only [Humanizer.apply_groups] at hm
    rcases List.mem_append.mp hm with hm | hm
    · simp only [Humanizer.apply_group] at hm
      obtain ⟨n, -, rfl⟩ := List.mem_map.mp hm
      rw [process_note_duration]
      exact clamp_ge _
    · exact ih (k + 1) _ m hm

/-- C7: whenever at least one governing flag is set, every note processed by
apply_to_hand has its duration multiplied by the group articulation multiplier
and then clamped from below at 0.03 s: the per-note transformation yields
exactly 0.03 when the product falls below 0.03 (and the product otherwise),
and every note in the output list has duration at least 0.03 s, for arbitrary
random draws. -/
theorem C7_duration_floor (cfg : HumanizerConfig)
    (gauss_draws unif_draws : ℕ → ℚ) (notes : List Note) (hand : String)
    (resync_points : List ℚ) (st : HumanizerState)
    (hflag : (cfg.vary_timing || cfg.vary_articulation ||
      cfg.enable_drift_correction || cfg.enable_chord_roll) = true) :
    (∀ m ∈ (Humanizer.apply_to_hand cfg gauss_draws unif_draws notes hand
        resync_points st).1, 3/100 ≤ m.duration) ∧
    (∀ (off dr : ℚ) (don : Bool) (ga : ℚ) (n : Note),
      (Humanizer.process_note off dr don ga n).duration =
        if n.duration * ga < 3/100 then 3/100 else n.duration * ga) := by
  constructor
  · intro m hm
    rw [Humanizer.apply_to_hand, if_neg (by simp [hflag])] at hm
    exact apply_groups_duration_floor cfg hand resync_points gauss_draws
      unif_draws _ 0 st m hm
  · intro off dr don ga n
    rfl

/-- Witness for C7_duration_floor with only vary_timing set and no notes. -/
theorem C7_witness :
    (∀ m ∈ (Humanizer.apply_to_hand ⟨true, false, false, false, 0, 1, 0⟩
        (fun _ => 0) (fun _ => 0) [] "left" [] ⟨0, 0⟩).1, 3/100 ≤ m.duration) ∧
    (∀ (off dr : ℚ) (don : Bool) (ga : ℚ) (n : Note),
      (Humanizer.process_note off dr don ga n).duration =
        if n.duration * ga < 3/100 then 3/100 else n.duration * ga) :=
  C7_duration_floor ⟨true, false, false, false, 0, 1, 0⟩ (fun _ => 0) (fun _ => 0)
    [] "left" [] ⟨0, 0⟩ rfl

/-- C8: with vary_timing, vary_articulation, enable_drift_correction and
enable_chord_roll all unset, apply_to_hand returns its notes and its drift
state entirely unchanged, for every input list, hand, resync-point set and
random stream. -/
theorem C8_no_flags_noop (cfg : HumanizerConfig)
    (gauss_draws unif_draws : ℕ → ℚ) (notes : List Note) (hand : String)
    (resync_points : List ℚ) (st : HumanizerState)
    (h1 : cfg.vary_timing = false) (h2 : cfg.vary_articulation = false)
    (h3 : cfg.enable_drift_correction = false)
    (h4 : cfg.enable_chord_roll = false) :
    Humanizer.apply_to_hand cfg gauss_draws unif_draws notes hand resync_points
      st = (notes, st) := by
  rw [Humanizer.apply_to_hand, if_pos]
  simp [h1, h2, h3, h4]

/-- Witness for C8_no_flags_noop at a concrete one-note input. -/
theorem C8_witness :
    Humanizer.apply_to_hand ⟨false, false, false, false, 0, 1, 0⟩ (fun _ => 0)
      (fun _ => 0) [⟨0, 60, 100, 0, 1, "right", 0, 0⟩] "right" [0] ⟨1, 2⟩ =
      ([⟨0, 60, 100, 0, 1, "right", 0, 0⟩], ⟨1, 2⟩) :=
  C8_no_flags_noop ⟨false, false, false, false, 0, 1, 0⟩ (fun _ => 0) (fun _ => 0)
    [⟨0, 60, 100, 0, 1, "right", 0, 0⟩] "right" [0] ⟨1, 2⟩ rfl rfl rfl rfl

theorem countP_eq_of_initial_run (p : ℚ → Bool) :
    ∀ (l : List ℚ) (n : ℕ), n ≤ l.length →
    (∀ i (hi : i < l.length), (p (l.get ⟨i, hi⟩) = true ↔ i < n)) →
    l.countP p = n := by
  intro l
  induction l with
  | nil =>
    intro n hn _
    simp only [List.length_nil, Nat.le_zero] at hn
    simp [hn]
  | cons a l ih =>
    intro n hn h
    cases n with
    | zero =>
      rw [List.countP_eq_zero]
      intro x hx
      obtain ⟨⟨i, hi⟩, rfl⟩ := List.mem_iff_get.mp hx
      simpa using (h i hi)
    | succ n =>
      have ha : p a = true := (h 0 (by simp)).mpr (Nat.succ_pos n)
      have hl : l.countP p = n := by
        refine ih n (by simpa using Nat.succ_le_succ_iff.mp hn) ?_
        intro i hi
        simpa using h (i + 1) (by simpa using Nat.succ_lt_succ hi)
      rw [List.countP_cons, hl, ha]
      simp

theorem sorted_countP_le (x : ℚ) :
    ∀ (a : List ℚ), List.Sorted (· ≤ ·) a →
    ∀ i (hi : i < a.length),
      (a.get ⟨i, hi⟩ ≤ x ↔ i < a.countP (fun k => decide (k ≤ x))) := by
  intro a
  induction a with
  | nil => intro _ i hi; simp at hi
  | cons y l ih =>
    intro hs i hi
    obtain ⟨hy, hl⟩ := List.pairwise_cons.mp hs
    by_cases hyx : y ≤ x
    · have hdy : (decide (y ≤ x)) = true := decide_eq_true hyx
      rw [List.countP_cons]
      simp only [hdy, if_true]
      cases i with
      | zero => exact iff_of_true hyx (by omega)
      | succ i =>
        have := ih hl i (by simpa using Nat.succ_lt_succ_iff.mp hi)
        simpa [List.get_cons_succ, Nat.succ_lt_succ_iff] using this
    · have hzero : (y :: l).countP (fun k => decide (k ≤ x)) = 0 := by
        rw [List.countP_eq_zero]
        intro z hz
        rcases List.mem_cons.mp hz with hz | hz
        · subst hz; simpa using hyx
        · have : y ≤ z := hy z hz
          simp only [decide_eq_true_eq]
          intro hzx
          exact hyx (le_trans this hzx)
      rw [hzero]
      simp only [Nat.not_lt_zero, iff_false]
      cases i with
      | zero => simpa using hyx
      | succ i =>
        intro hzx
        have hmem : l.get ⟨i, by simpa using Nat.succ_lt_succ_iff.mp hi⟩ ∈ l :=
          l.get_mem _ _
        exact hyx (le_trans (hy _ hmem) hzx)

theorem sorted_get_mono (a : List ℚ) (hs : List.Sorted (· ≤ ·) a) {i j : ℕ}
    (hij : i ≤ j) (hj : j < a.length) :
    a.get ⟨i, lt_of_le_of_lt hij hj⟩ ≤ a.get ⟨j, hj⟩ := by
  rcases eq_or_lt_of_le hij with h | h
  · subst h; exact le_refl _
  · exact List.pairwise_iff_get.mp hs ⟨i, _⟩ ⟨j, hj⟩ h

theorem bisect_go_count_aux (a : List ℚ) (x : ℚ) (hs : List.Sorted (· ≤ ·) a) :
    ∀ N lo hi, hi - lo ≤ N → lo ≤ hi → hi ≤ a.length →
    (∀ i (h2 : i < a.length), i < lo → a.get ⟨i, h2⟩ ≤ x) →
    (∀ i (h2 : i < a.length), hi ≤ i → x < a.get ⟨i, h2⟩) →
    bisect_go a x lo hi = a.countP (fun k => decide (k ≤ x)) := by
  intro N
  induction N with
  | zero =>
    intro lo hi hN hlh hha hlow hhigh
    have heq : lo = hi := by omega
    subst heq
    rw [bisect_go, dif_neg (by omega)]
    refine (countP_eq_of_initial_run _ a lo hha ?_).symm
    intro i h2
    simp only [decide_eq_true_eq]
    constructor
    · intro hp
      by_contra hge
      exact absurd hp (not_le.mpr (hhigh i h2 (by omega)))
    · exact hlow i h2
  | succ N ih =>
    intro lo hi hN hlh hha hlow hhigh
    by_cases hlt : lo < hi
    · rw [bisect_go, dif_pos hlt]
      have hmid_lt : (lo + hi) / 2 < a.length := by omega
      have hgetD : a.getD ((lo + hi) / 2) 0 = a.get ⟨(lo + hi) / 2, hmid_lt⟩ :=
        List.getD_eq_get a 0 hmid_lt
      simp only [hgetD]
      split
      · refine ih lo ((lo + hi) / 2) (by omega) (by omega) (by omega) hlow ?_
        intro i h2 hge
        calc x < a.get ⟨(lo + hi) / 2, hmid_lt⟩ := by assumption
        _ ≤ a.get ⟨i, h2⟩ := sorted_get_mono a hs hge h2
      · refine ih ((lo + hi) / 2 + 1) hi (by omega) (by omega) hha ?_ hhigh
        intro i h2 hilt
        calc a.get ⟨i, h2⟩ ≤ a.get ⟨(lo + hi) / 2, hmid_lt⟩ :=
          sorted_get_mono a hs (by omega) hmid_lt
        _ ≤ x := not_lt.mp (by assumption)
    · have heq : lo = hi := by omega
      subst heq
      rw [bisect_go, dif_neg (by omega)]
      refine (countP_eq_of_initial_run _ a lo hha ?_).symm
      intro i h2
      simp only [decide_eq_true_eq]
      constructor
      · intro hp
        by_contra hge
        exact absurd hp (not_le.mpr (hhigh i h2 (by omega)))
      · exact hlow i h2

theorem bisect_right_count (a : List ℚ) (x : ℚ) (hs : List.Sorted (· ≤ ·) a) :
    bisect_right a x = a.countP (fun k => decide (k ≤ x)) := by
  refine bisect_go_count_aux a x hs a.length 0 a.length (by omega) (by omega)
    (le_refl _) ?_ ?_
  · intro i h2 hlt
    omega
  · intro i h2 hge
    omega

/-- Relation between consecutive segments: the cumulative beat advances by the
elapsed time divided by the seconds-per-beat of the tempo in force before the
breakpoint. -/
def seg_rel (s s2 : Seg) : Prop :=
  s2.beat = s.beat + (s2.time - s.time) / (s.tempo / 1000000)

theorem build_segments_go_chain :
    ∀ (events : List (ℚ × ℚ)) (beat last_t tempo : ℚ),
    List.Chain seg_rel ⟨last_t, beat, tempo⟩
      (build_segments_go events beat last_t tempo) := by
  intro events
  induction events with
  | nil => intro beat last_t tempo; exact List.Chain.nil
  | cons e rest ih =>
    intro beat last_t tempo
    obtain ⟨t, nt⟩ := e
    rw [build_segments_go]
    exact List.Chain.cons rfl (ih _ _ _)

theorem build_segments_go_times :
    ∀ (events : List (ℚ × ℚ)) (beat last_t tempo : ℚ),
    (build_segments_go events beat last_t tempo).map Seg.time =
      events.map Prod.fst := by
  intro events
  induction events with
  | nil => intro beat last_t tempo; rfl
  | cons e rest ih =>
    intro beat last_t tempo
    obtain ⟨t, nt⟩ := e
    rw [build_segments_go]
    simp only [List.map_cons, ih]

theorem build_segments_go_tempos :
    ∀ (events : List (ℚ × ℚ)) (beat last_t tempo : ℚ),
    ∀ s ∈ build_segments_go events beat last_t tempo,
      s.tempo ∈ events.map Prod.snd := by
  intro events
  induction events with
  | nil => intro beat last_t tempo s hs; simp [build_segments_go] at hs
  | cons e rest ih =>
    intro beat last_t tempo s hs
    obtain ⟨t, nt⟩ := e
    rw [build_segments_go] at hs
    rcases List.mem_cons.mp hs with hs | hs
    · subst hs; simp
    · simp only [List.map_cons, List.mem_cons]
      exact Or.inr (ih _ _ _ s hs)

/-- The segments of a TempoMap built from a sorted-strict, positive-tempo
event list, written without the mergeSort (which is the identity here). -/
theorem build_segments_eq (tempo_events : List (ℚ × ℚ))
    (ts : List (ℚ × ℚ × ℚ))
    (hsorted : List.Pairwise (fun a b => a.1 < b.1) tempo_events) :
    (TempoMap.build tempo_events ts).segments =
      (if tempo_events = [] ∨ 0 < tempo_events.headI.1 then [(⟨0, 0, 500000⟩ : Seg)]
        else []) ++ build_segments_go tempo_events 0 0 500000 := by
  have hms : tempo_events.mergeSort (fun a b => a.1 ≤ b.1) = tempo_events :=
    List.mergeSort_of_sorted (hsorted.imp (fun h => decide_eq_true (le_of_lt h)))
  rw [TempoMap.build]
  simp only [hms]

theorem headI_eq_get (l : List Seg) (h : 0 < l.length) : l.headI = l.get ⟨0, h⟩ := by
  cases l with
  | nil => simp at h
  | cons a l => rfl

theorem roundtrip_core (tm : TempoMap) (hne : tm.segments ≠ [])
    (hchain : List.Chain' seg_rel tm.segments)
    (htimes : List.Pairwise (· < ·) (tm.segments.map Seg.time))
    (htempos : ∀ s ∈ tm.segments, 0 < s.tempo)
    (t : ℚ) (ht : tm.segments.headI.time ≤ t) :
    tm.beat_to_time (tm.time_to_beat t) = t := by
  have hm_pos : 0 < tm.segments.length := List.length_pos.mpr hne
  have hkeys_sorted : List.Sorted (· ≤ ·) (tm.segments.map Seg.time) :=
    htimes.imp le_of_lt
  have hchar : ∀ i (hi : i < tm.segments.length),
      ((tm.segments.get ⟨i, hi⟩).time ≤ t ↔
        i < (tm.segments.map Seg.time).countP (fun q => decide (q ≤ t))) := by
    intro i hi
    have := sorted_countP_le t (tm.segments.map Seg.time) hkeys_sorted i
      (by simpa using hi)
    simpa [List.get_map] using this
  have hn_le : (tm.segments.map Seg.time).countP (fun q => decide (q ≤ t)) ≤
      tm.segments.length := by
    have := List.countP_le_length (fun q => decide (q ≤ t))
      (l := tm.segments.map Seg.time)
    simpa using this
  have hn_pos : 0 < (tm.segments.map Seg.time).countP (fun q => decide (q ≤ t)) := by
    refine (hchar 0 hm_pos).mp ?_
    rw [← headI_eq_get tm.segments hm_pos]
    exact ht
  obtain ⟨k, hk⟩ : ∃ k,
      (tm.segments.map Seg.time).countP (fun q => decide (q ≤ t)) = k + 1 :=
    ⟨(tm.segments.map Seg.time).countP (fun q => decide (q ≤ t)) - 1, by omega⟩
  have hkm : k < tm.segments.length := by omega
  have hbr : bisect_right (tm.segments.map Seg.time) t = k + 1 := by
    rw [bisect_right_count _ _ hkeys_sorted, hk]
  have hspb : 0 < (tm.segments.get ⟨k, hkm⟩).tempo / 1000000 :=
    div_pos (htempos _ (tm.segments.get_mem _ _)) (by norm_num)
  have htk : (tm.segments.get ⟨k, hkm⟩).time ≤ t := (hchar k hkm).mpr (by omega)
  have htb : tm.time_to_beat t =
      (tm.segments.get ⟨k, hkm⟩).beat +
        (t - (tm.segments.get ⟨k, hkm⟩).time) /
          ((tm.segments.get ⟨k, hkm⟩).tempo / 1000000) := by
    rw [TempoMap.time_to_beat]
    simp only [hbr]
    rw [if_neg (by omega)]
    have htn : (((k + 1 : ℕ) : ℤ) - 1).toNat = k := by omega
    rw [htn, List.getD_eq_get tm.segments default hkm]
  have hadj : ∀ i (h : i + 1 < tm.segments.length),
      (tm.segments.get ⟨i + 1, h⟩).beat =
        (tm.segments.get ⟨i, by omega⟩).beat +
          ((tm.segments.get ⟨i + 1, h⟩).time -
            (tm.segments.get ⟨i, by omega⟩).time) /
            ((tm.segments.get ⟨i, by omega⟩).tempo / 1000000) := by
    intro i h
    exact List.chain'_iff_get.mp hchain i (by omega)
  have htadj : ∀ i (h : i + 1 < tm.segments.length),
      (tm.segments.get ⟨i, by omega⟩).time < (tm.segments.get ⟨i + 1, h⟩).time := by
    intro i h
    have := List.pairwise_iff_get.mp htimes
      ⟨i, by simpa using (by omega : i < tm.segments.length)⟩
      ⟨i + 1, by simpa using h⟩ (by simp)
    simpa [List.get_map] using this
  have hbadj : ∀ i (h : i + 1 < tm.segments.length),
      (tm.segments.get ⟨i, by omega⟩).beat < (tm.segments.get ⟨i + 1, h⟩).beat := by
    intro i h
    rw [hadj i h]
    have hdiv : 0 < ((tm.segments.get ⟨i + 1, h⟩).time -
        (tm.segments.get ⟨i, by omega⟩).time) /
        ((tm.segments.get ⟨i, by omega⟩).tempo / 1000000) :=
      div_pos (by linarith [htadj i h])
        (div_pos (htempos _ (tm.segments.get_mem _ _)) (by norm_num))
    linarith
  have hbchain : List.Chain' (· < ·) (tm.segments.map Seg.beat) := by
    rw [List.chain'_iff_get]
    intro i h
    have h1 : i + 1 < tm.segments.length := by simpa using Nat.add_lt_of_lt_sub h
    simp only [List.get_map]
    exact hbadj i h1
  have hbsorted : List.Sorted (· ≤ ·) (tm.segments.map Seg.beat) :=
    (List.chain'_iff_pairwise.mp hbchain).imp le_of_lt
  have hble : (tm.segments.get ⟨k, hkm⟩).beat ≤ tm.time_to_beat t := by
    rw [htb]
    have : 0 ≤ (t - (tm.segments.get ⟨k, hkm⟩).time) /
        ((tm.segments.get ⟨k, hkm⟩).tempo / 1000000) :=
      div_nonneg (by linarith) (le_of_lt hspb)
    linarith
  have hblt : ∀ (h : k + 1 < tm.segments.length),
      tm.time_to_beat t < (tm.segments.get ⟨k + 1, h⟩).beat := by
    intro h
    rw [htb, hadj k h]
    have htlt : t < (tm.segments.get ⟨k + 1, h⟩).time := by
      by_contra hle
      have := (hchar (k + 1) h).mp (not_lt.mp hle)
      omega
    have hdivlt := (div_lt_div_right hspb).mpr
      (show t - (tm.segments.get ⟨k, hkm⟩).time <
        (tm.segments.get ⟨k + 1, h⟩).time - (tm.segments.get ⟨k, hkm⟩).time by
          linarith)
    linarith
  have hbchar : ∀ i (hi : i < tm.segments.length),
      ((tm.segments.get ⟨i, hi⟩).beat ≤ tm.time_to_beat t ↔ i < k + 1) := by
    intro i hi
    constructor
    · intro hle2
      by_contra hige
      have h1 : k + 1 < tm.segments.length := by omega
      have hmono : (tm.segments.map Seg.beat).get ⟨k + 1, by simpa using h1⟩ ≤
          (tm.segments.map Seg.beat).get ⟨i, by simpa using hi⟩ :=
        sorted_get_mono _ hbsorted (by omega) _
      simp only [List.get_map] at hmono
      have := hblt h1
      linarith
    · intro hilt
      have hmono : (tm.segments.map Seg.beat).get ⟨i, by simpa using hi⟩ ≤
          (tm.segments.map Seg.beat).get ⟨k, by simpa using hkm⟩ :=
        sorted_get_mono _ hbsorted (by omega) _
      simp only [List.get_map] at hmono
      linarith [hble]
  have hbcount : (tm.segments.map Seg.beat).countP
      (fun q => decide (q ≤ tm.time_to_beat t)) = k + 1 := by
    refine countP_eq_of_initial_run _ _ (k + 1) (by simpa using hkm) ?_
    intro i hi
    have hi2 : i < tm.segments.length := by simpa using hi
    have := hbchar i hi2
    simpa [List.get_map] using this
  have hbr2 : bisect_right (tm.segments.map Seg.beat) (tm.time_to_beat t) = k + 1 := by
    rw [bisect_right_count _ _ hbsorted, hbcount]
  have hbt : tm.beat_to_time (tm.time_to_beat t) =
      (tm.segments.get ⟨k, hkm⟩).time +
        (tm.time_to_beat t - (tm.segments.get ⟨k, hkm⟩).beat) *
          ((tm.segments.get ⟨k, hkm⟩).tempo / 1000000) := by
    rw [TempoMap.beat_to_time]
    simp only [hbr2]
    rw [if_neg (by omega)]
    have htn : (((k + 1 : ℕ) : ℤ) - 1).toNat = k := by omega
    rw [htn, List.getD_eq_get tm.segments default hkm]
  rw [hbt, htb]
  have hne0 : (tm.segments.get ⟨k, hkm⟩).tempo / 1000000 ≠ 0 := ne_of_gt hspb
  rw [add_sub_cancel_left, div_mul_cancel₀ _ hne0]
  ring

theorem built_ne_nil (tempo_events : List (ℚ × ℚ)) (ts : List (ℚ × ℚ × ℚ))
    (hsorted : List.Pairwise (fun a b => a.1 < b.1) tempo_events) :
    (TempoMap.build tempo_events ts).segments ≠ [] := by
  rw [build_segments_eq tempo_events ts hsorted]
  by_cases hc : tempo_events = [] ∨ 0 < tempo_events.headI.1
  · rw [if_pos hc]; simp
  · rw [if_neg hc]
    push_neg at hc
    obtain ⟨e, rest, rfl⟩ := List.exists_cons_of_ne_nil hc.1
    obtain ⟨te, nte⟩ := e
    rw [build_segments_go]
    simp

theorem built_head_nonpos (tempo_events : List (ℚ × ℚ)) (ts : List (ℚ × ℚ × ℚ))
    (hsorted : List.Pairwise (fun a b => a.1 < b.1) tempo_events) :
    (TempoMap.build tempo_events ts).segments.headI.time ≤ 0 := by
  rw [build_segments_eq tempo_events ts hsorted]
  by_cases hc : tempo_events = [] ∨ 0 < tempo_events.headI.1
  · rw [if_pos hc]; simp
  · rw [if_neg hc]
    push_neg at hc
    obtain ⟨e, rest, rfl⟩ := List.exists_cons_of_ne_nil hc.1
    obtain ⟨te, nte⟩ := e
    rw [build_segments_go]
    simpa using hc.2

theorem built_chain (tempo_events : List (ℚ × ℚ)) (ts : List (ℚ × ℚ × ℚ))
    (hsorted : List.Pairwise (fun a b => a.1 < b.1) tempo_events) :
    List.Chain' seg_rel (TempoMap.build tempo_events ts).segments := by
  rw [build_segments_eq tempo_events ts hsorted]
  by_cases hc : tempo_events = [] ∨ 0 < tempo_events.headI.1
  · rw [if_pos hc]
    show List.Chain' seg_rel (⟨0, 0, 500000⟩ :: build_segments_go tempo_events 0 0 500000)
    exact build_segments_go_chain tempo_events 0 0 500000
  · rw [if_neg hc]
    simp only [List.nil_append]
    have hfull : List.Chain' seg_rel
        (⟨0, 0, 500000⟩ :: build_segments_go tempo_events 0 0 500000) :=
      build_segments_go_chain tempo_events 0 0 500000
    exact hfull.tail

theorem built_times (tempo_events : List (ℚ × ℚ)) (ts : List (ℚ × ℚ × ℚ))
    (hsorted : List.Pairwise (fun a b => a.1 < b.1) tempo_events) :
    List.Pairwise (· < ·) ((TempoMap.build tempo_events ts).segments.map Seg.time) := by
  rw [build_segments_eq tempo_events ts hsorted]
  have hmap : List.Pairwise (· < ·) (tempo_events.map Prod.fst) :=
    List.pairwise_map.mpr hsorted
  by_cases hc : tempo_events = [] ∨ 0 < tempo_events.headI.1
  · rw [if_pos hc]
    simp only [List.map_append, List.map_cons, List.map_nil, List.cons_append,
      List.nil_append, build_segments_go_times]
    refine List.pairwise_cons.mpr ⟨?_, hmap⟩
    intro y hy
    rcases hc with hc | hc
    · subst hc; simp at hy
    · obtain ⟨e, hmem, rfl⟩ := List.mem_map.mp hy
      cases tempo_events with
      | nil => simp at hmem
      | cons e0 rest =>
        rcases List.mem_cons.mp hmem with hm | hm
        · subst hm; simpa using hc
        · have := (List.pairwise_cons.mp hsorted).1 e hm
          simp only [List.headI] at hc
          linarith
  · rw [if_neg hc]
    simpa [build_segments_go_times] using hmap

theorem built_tempos (tempo_events : List (ℚ × ℚ)) (ts : List (ℚ × ℚ × ℚ))
    (hsorted : List.Pairwise (fun a b => a.1 < b.1) tempo_events)
    (hpos : ∀ e ∈ tempo_events, 0 < e.2) :
    ∀ s ∈ (TempoMap.build tempo_events ts).segments, 0 < s.tempo := by
  rw [build_segments_eq tempo_events ts hsorted]
  intro s hs
  rcases List.mem_append.mp hs with hs | hs
  · split at hs
    · simp only [List.mem_singleton] at hs
      subst hs
      norm_num
    · simp at hs
  · have := build_segments_go_tempos tempo_events 0 0 500000 s hs
    obtain ⟨e, hmem, heq⟩ := List.mem_map.mp this
    rw [← heq]
    exact hpos e hmem

/-- C1 (counterexample): the claim quantifies over ALL times t, but for a
query before the first breakpoint time_to_beat returns 0.0, so the round trip
collapses negative times to the first breakpoint's time: with no tempo events
(a valid sequence) and t = -1, beat_to_time(time_to_beat(-1)) = 0, not -1. -/
theorem C1_counterexample :
    (TempoMap.build [] []).beat_to_time
      ((TempoMap.build [] []).time_to_beat (-1)) ≠ -1 := by
  have hb : TempoMap.build [] [] = ⟨[], [], [⟨0, 0, 500000⟩], false⟩ := by
    simp [TempoMap.build, build_segments_go]
  rw [hb]
  have h1 : (⟨[], [], [⟨0, 0, 500000⟩], false⟩ : TempoMap).time_to_beat (-1) = 0 := by
    rw [TempoMap.time_to_beat]
    simp only [List.map_cons, List.map_nil]
    have hbr : bisect_right [(0:ℚ)] (-1) = 0 := by
      rw [bisect_right]
      simp only [List.length_cons, List.length_nil]
      rw [show ((0:ℕ) + 1) = 1 from rfl, bisect_go_single]
      norm_num
    rw [hbr]
    norm_num
  rw [h1]
  have h2 : (⟨[], [], [⟨0, 0, 500000⟩], false⟩ : TempoMap).beat_to_time 0 = 0 := by
    rw [TempoMap.beat_to_time]
    simp only [List.map_cons, List.map_nil]
    have hbr : bisect_right [(0:ℚ)] 0 = 1 := by
      rw [bisect_right]
      simp only [List.length_cons, List.length_nil]
      rw [show ((0:ℕ) + 1) = 1 from rfl, bisect_go_single]
      norm_num
    rw [hbr]
    norm_num
  rw [h2]
  norm_num

/-- C1 (amended): for every TempoMap built from a valid tempo-event sequence
(times sorted strictly increasing, tempos positive) and every time t >= 0,
beat_to_time(time_to_beat(t)) = t - exactly, in the rational model.  The
restriction to non-negative t is forced by the counterexample: queries before
the first breakpoint return 0. -/
theorem C1_roundtrip_nonneg (tempo_events : List (ℚ × ℚ))
    (ts : List (ℚ × ℚ × ℚ))
    (hsorted : List.Pairwise (fun a b => a.1 < b.1) tempo_events)
    (hpos : ∀ e ∈ tempo_events, 0 < e.2) (t : ℚ) (ht : 0 ≤ t) :
    (TempoMap.build tempo_events ts).beat_to_time
      ((TempoMap.build tempo_events ts).time_to_beat t) = t :=
  roundtrip_core _ (built_ne_nil _ _ hsorted) (built_chain _ _ hsorted)
    (built_times _ _ hsorted) (built_tempos _ _ hsorted hpos) t
    (le_trans (built_head_nonpos _ _ hsorted) ht)

/-- Witness for C1_roundtrip_nonneg: one tempo change at 1 s to 250000 us per
quarter, queried at t = 3 s. -/
theorem C1_witness :
    (TempoMap.build [(1, 250000)] []).beat_to_time
      ((TempoMap.build [(1, 250000)] []).time_to_beat 3) = 3 :=
  C1_roundtrip_nonneg [(1, 250000)] [] (List.pairwise_singleton _ _)
    (by intro e he; simp only [List.mem_singleton] at he; subst he; norm_num) 3
    (by norm_num)
